import Mathlib

/-!
Verification of the digital-signage player core: a shallow embedding of
`CacheService` (file-based LRU video cache), the `PlayerScreen` playback
engine (debounced advance, watchdog, session refresh), and the `App`
`sync_state` handler, together with proofs of the spec's testable
properties.

Modelling conventions:
- JavaScript timestamps (`Date.now()`) are natural numbers.  All the
  guards in the source have the shape `x - y < c`, `x - y > c` or
  `x - y >= c`; for these, truncated `Nat` subtraction yields exactly the
  same truth value as JavaScript's signed subtraction (a negative
  difference and a truncated-to-zero difference fall on the same side of
  every such comparison), so `Nat` arithmetic is faithful.
- Filesystem and network effects are made explicit: the cache directory
  is a list of filenames, and each download is driven by a
  `DownloadEnv` describing the outcome of the `RNFS` calls the code
  makes (whether `downloadFile` wrote a file, the status code or a
  rejected promise, the `stat` outcome, whether `unlink` throws).
- `saveManifest` is best-effort fire-and-forget in the source (errors
  swallowed, no control-flow influence), so it has no model state.
-/

namespace Signage

/-! ## Cache data model (`CacheService.ts`) -/

/-- Manifest record: `{ url, filename, size, accessedAt }`. -/
structure CacheEntry where
  url : String
  filename : String
  size : Nat
  accessedAt : Nat
deriving Repr, DecidableEq

/-- The cache-service state: the in-memory manifest `entries`, the set of
filenames present in the cache directory, and a counter of how many times
`RNFS.downloadFile` has been invoked (network fetches). -/
structure CacheState where
  entries : List CacheEntry
  files : List String
  downloads : Nat
deriving Repr, DecidableEq

/-- Outcome of the I/O a single `_download` performs. -/
structure DownloadEnv where
  /-- Whether `RNFS.downloadFile` left a (possibly partial) file at the target path. -/
  writesFile : Bool
  /-- Outcome `none`: the download promise rejected; `some s`: resolved with `statusCode = s`. -/
  dlResult : Option Nat
  /-- Outcome `none`: `RNFS.stat` threw; `some n`: returned size `n`. -/
  statResult : Option Nat
  /-- Whether `RNFS.unlink` of the partial file throws. -/
  unlinkThrows : Bool
  /-- Value of `Date.now()` during this call. -/
  now : Nat
deriving Repr, DecidableEq

def CACHE_DIR : String := "/data/cache/video-cache"

/-- Default configuration, `parseInt` of the `MAX_CACHE_MB` env value or 200. -/
def MAX_CACHE_MB : Nat := 200

def MAX_CACHE_BYTES : Nat := MAX_CACHE_MB * 1024 * 1024

/-! ### `urlToFilename` and `simpleHash` -/

/-- Truncation to a signed 32-bit integer, the effect of `hash |= 0`
(and of `<<` operands/results) in JavaScript. -/
def toInt32 (n : Int) : Int := (n + 2 ^ 31) % 2 ^ 32 - 2 ^ 31

/-- One loop iteration of `simpleHash`:
`hash = (hash << 5) - hash + char; hash |= 0`.  `hash << 5` itself
truncates to int32, the sum is exact in doubles, `|= 0` truncates. -/
def simpleHashStep (h : Int) (c : Nat) : Int :=
  toInt32 (toInt32 (h * 32) - h + (c : Int))

/-- Model of `CacheService.simpleHash` (before `Math.abs`/`toString(36)`), folding
over the UTF-16 code units of the string (URLs are ASCII, where Lean's
scalar values coincide with code units). -/
def simpleHash (s : String) : Int :=
  s.toList.foldl (fun h c => simpleHashStep h c.toNat) 0

/-- Base-36 digit, lowercase, as produced by `Number.prototype.toString(36)`. -/
def digit36 (d : Nat) : Char :=
  if d < 10 then Char.ofNat (48 + d) else Char.ofNat (87 + d)

/-- Digits of `n` in base 36, most significant first. -/
def base36Digits (n : Nat) : List Char :=
  if h : n < 36 then [digit36 n]
  else base36Digits (n / 36) ++ [digit36 (n % 36)]
decreasing_by
  exact Nat.div_lt_self (by omega) (by omega)

/-- Model of `Math.abs(hash).toString(36)`. -/
def base36 (n : Nat) : String := String.mk (base36Digits n)

/-- Model of `CacheService.urlToFilename`: last path segment up to a query string
(or the literal `video` when empty, since the empty string is falsy), hash of the whole URL in base
36, preserved extension defaulting to `mp4`. -/
def urlToFilename (url : String) : String :=
  let parts := url.splitOn ("/")
  let last := parts.getLastD ("")
  let basename0 := (last.splitOn ("?")).headD ("")
  let basename := if basename0 = "" then "video" else basename0
  let hash := base36 (simpleHash url).natAbs
  let ext := if basename.contains ('.') then (basename.splitOn (".")).getLastD ("") else "mp4"
  hash ++ "." ++ ext

/-- The full local path `${CACHE_DIR}/${filename}` for a URL. -/
def filePathFor (url : String) : String := CACHE_DIR ++ "/" ++ urlToFilename url

/-! ### Cache operations -/

/-- Model of `RNFS.unlink`: the filename disappears from the directory. -/
def removeFile (fn : String) (files : List String) : List String :=
  files.filter (fun f => f ≠ fn)

/-- A completed `RNFS.downloadFile` target: the filename is present. -/
def addFile (fn : String) (files : List String) : List String :=
  if fn ∈ files then files else fn :: files

/-- Effect of `entry.accessedAt = Date.now()` on the entry `find` located (the first
one with this URL). -/
def touchFirst (now : Nat) (url : String) : List CacheEntry → List CacheEntry
  | [] => []
  | e :: rest =>
    if e.url = url then { e with accessedAt := now } :: rest
    else e :: touchFirst now url rest

/-- Total of `entry.size` over a manifest, the value
`entries.reduce((sum, e) => sum + e.size, 0)` computes. -/
def sumSizes (l : List CacheEntry) : Nat := (l.map (fun e => e.size)).sum

namespace CacheService

/-- Model of `CacheService.getCachedPath`: `find` the entry; verify its file is on
disk; on a missing file drop every entry with this URL (self-healing) and
return null; on a hit refresh `accessedAt` and return the path. -/
def getCachedPath (now : Nat) (url : String) (st : CacheState) :
    Option String × CacheState :=
  match st.entries.find? (fun e => e.url = url) with
  | none => (none, st)
  | some e =>
    if e.filename ∈ st.files then
      (some (CACHE_DIR ++ "/" ++ e.filename),
       { st with entries := touchFirst now url st.entries })
    else
      (none, { st with entries := st.entries.filter (fun x => x.url ≠ url) })

/-- The comparator `(a, b) => a.accessedAt - b.accessedAt` passed to
`Array.prototype.sort`. -/
def byAccess (a b : CacheEntry) : Prop := a.accessedAt ≤ b.accessedAt

instance : DecidableRel byAccess := fun a b => inferInstanceAs (Decidable (_ ≤ _))

instance : IsTotal CacheEntry byAccess := ⟨fun a b => Nat.le_total _ _⟩

instance : IsTrans CacheEntry byAccess := ⟨fun _ _ _ => Nat.le_trans⟩

/-- Model of `[...entries].sort((a, b) => a.accessedAt - b.accessedAt)`.
`Array.prototype.sort` is stable (ES2019), so its output is the unique
permutation that is sorted by `accessedAt` with ties in array order —
exactly what insertion sort with `≤` produces. -/
def sortByAccess (l : List CacheEntry) : List CacheEntry :=
  List.insertionSort byAccess l

/-- The `for (const entry of sorted)` eviction loop: stop once
`totalSize <= MAX_CACHE_BYTES`, otherwise unlink the entry's file,
subtract its size from the running total and drop every manifest entry
with its URL.  The loop total is a JavaScript number, modelled as `Int`.
The `try/catch` around the unlink swallows errors; we model the
non-throwing filesystem here (an unlink failure would leave the file but
change no manifest state). -/
def evictGo (budget : Nat) :
    List CacheEntry → Int → List CacheEntry → List String →
    List CacheEntry × List String
  | [], _, entries, files => (entries, files)
  | e :: rest, totalSize, entries, files =>
    if totalSize ≤ (budget : Int) then (entries, files)
    else
      evictGo budget rest (totalSize - (e.size : Int))
        (entries.filter (fun x => x.url ≠ e.url))
        (removeFile e.filename files)

/-- Model of `CacheService.evictOldVideos` with a configurable byte budget
(`MAX_CACHE_BYTES` in the source, derived from the `MAX_CACHE_MB`
environment value). -/
def evictOldVideos (budget : Nat) (st : CacheState) : CacheState :=
  let totalSize : Int := st.entries.foldl (fun s e => s + (e.size : Int)) 0
  if totalSize ≤ (budget : Int) then st
  else
    let sorted := sortByAccess st.entries
    let res := evictGo budget sorted totalSize st.entries st.files
    { st with entries := res.1, files := res.2 }

/-- Model of `CacheService._download`: write the file, check the status code
(cleaning the partial file on non-200), `stat` for the size, append the
manifest entry, evict, and return the path; any thrown error is caught
and turns into `null` with no further cleanup. -/
def _download (env : DownloadEnv) (budget : Nat) (url : String)
    (st : CacheState) : Option String × CacheState :=
  let filename := urlToFilename url
  let filePath := CACHE_DIR ++ "/" ++ filename
  let files1 := if env.writesFile then addFile filename st.files else st.files
  let st1 : CacheState :=
    { st with files := files1, downloads := st.downloads + 1 }
  match env.dlResult with
  | none =>
    -- download promise rejected → outer catch → null (partial file kept)
    (none, st1)
  | some status =>
    if status ≠ 200 then
      if filename ∈ st1.files then
        if env.unlinkThrows then (none, st1)
        else (none, { st1 with files := removeFile filename st1.files })
      else (none, st1)
    else
      match env.statResult with
      | none =>
        -- stat threw → outer catch → null (file kept, no manifest entry)
        (none, st1)
      | some size =>
        let entry : CacheEntry :=
          { url := url, filename := filename, size := size, accessedAt := env.now }
        let st2 := { st1 with entries := st1.entries ++ [entry] }
        let st3 := evictOldVideos budget st2
        (some filePath, st3)

/-- Model of `CacheService.prefetchVideo` in the sequential (single-caller) case:
cache-first, then download.  The `activeDownloads` coalescing map is
relevant only under concurrency and is modelled by the machine below. -/
def prefetchVideo (env : DownloadEnv) (budget : Nat) (url : String)
    (st : CacheState) : Option String × CacheState :=
  match getCachedPath env.now url st with
  | (some p, st1) => (some p, st1)
  | (none, st1) => _download env budget url st1

/-- Model of `CacheService.getCacheSize`. -/
def getCacheSize (st : CacheState) : Nat := sumSizes st.entries

end CacheService

/-! ## Concurrent download coalescing (`prefetchVideo` + `activeDownloads`)

React Native runs JavaScript on a single event loop: promise
continuations are microtasks, and an I/O completion callback (here, the
`downloadFile` promise settling) is a macrotask that runs only once the
microtask queue is empty.  For `N` concurrent `prefetchVideo(url)` calls
on an uncached `url`, each caller's awaits before the
`activeDownloads` check (`init()`, `getCachedPath`) are resolved-promise
microtasks, and the check-then-set of `activeDownloads` is synchronous
(no `await` between `activeDownloads.get` and `activeDownloads.set`).
The machine below has one step per caller (its resume that performs the
cache check and the atomic map check-then-set) plus the download
completion event, which is enabled only when no caller still has a
pending microtask. -/

/-- Where one `prefetchVideo(url)` caller stands. -/
inductive CallerPhase where
  /-- Call issued; its `init`/`getCachedPath` microtasks not yet run. -/
  | pending
  /-- Registered on the shared `activeDownloads` promise. -/
  | awaiting
  /-- Resolved with `r` (the shared download result, or a cache hit). -/
  | done (r : Option String)
deriving Repr, DecidableEq

def CallerPhase.isPending : CallerPhase → Bool
  | .pending => true
  | _ => false

/-- Event-loop state for `N` concurrent `prefetchVideo(url)` calls on one
URL: the caller phases, whether `activeDownloads` holds a promise for the
URL, how many `_download`s were started, and the manifest entry's path
once a download succeeded. -/
structure CoalesceState where
  callers : List CallerPhase
  active : Bool
  started : Nat
  cachedPath : Option String
deriving Repr, DecidableEq

inductive CoalesceAction where
  /-- Caller `i`'s queued microtask runs: it performs `getCachedPath`
  (hitting the manifest if the download already landed) and otherwise the
  synchronous `activeDownloads` check-then-set. -/
  | stepCaller (i : Nat)
  /-- The `downloadFile` I/O completes with result `r`: a macrotask,
  schedulable only when no caller microtask is pending.  It resolves the
  shared promise (all awaiting callers), records the manifest entry on
  success, and runs the `finally` that deletes the `activeDownloads`
  entry. -/
  | complete (r : Option String)
deriving Repr, DecidableEq

def coalesceStep (st : CoalesceState) : CoalesceAction → CoalesceState
  | .stepCaller i =>
    match st.callers.get? i with
    | some .pending =>
      match st.cachedPath with
      | some p => { st with callers := st.callers.set i (.done (some p)) }
      | none =>
        if st.active then { st with callers := st.callers.set i .awaiting }
        else
          { st with callers := st.callers.set i .awaiting,
                    active := true, started := st.started + 1 }
    | _ => st
  | .complete r =>
    if st.active && st.callers.all (fun c => !c.isPending) then
      { st with
          active := false,
          cachedPath := if r.isSome then r else st.cachedPath,
          callers := st.callers.map (fun c => if c = .awaiting then .done r else c) }
    else st

def coalesceRun (st : CoalesceState) (acts : List CoalesceAction) : CoalesceState :=
  acts.foldl coalesceStep st

/-- Initial state: `N` concurrent `prefetchVideo(url)` calls on an uncached URL, before
anything has run. -/
def coalesceInit (n : Nat) : CoalesceState :=
  { callers := List.replicate n .pending, active := false, started := 0,
    cachedPath := none }

/-! ## Playback engine (`PlayerScreen`, resilient variant) -/

-- Session refresh after 2 hours
def MAX_SESSION_MS : Nat := 2 * 60 * 60 * 1000

def WATCHDOG_INTERVAL_MS : Nat := 5000

def WATCHDOG_STUCK_THRESHOLD_MS : Nat := 30000

/-- Telemetry and control signals the component emits: Discord webhook
logs and the `onRefresh(reason)` callback. -/
inductive Signal where
  | discordLog (title message : String) (color : Nat)
  | refresh (reason : String)
deriving Repr, DecidableEq

def Signal.isRefresh : Signal → Bool
  | .refresh _ => true
  | _ => false

/-- The refs/state of `PlayerScreen` that the end handler and the
watchdog read and write.  Playlist items are identified by URL. -/
structure PlayerState where
  playlist : List String
  currentIndex : Nat
  activeSource : Option String
  standbySource : Option String
  sessionStart : Nat
  lastProgress : Nat
  lastEndEvent : Nat
  loopCount : Nat
deriving Repr, DecidableEq

/-- Model of `handleVideoEnd`: debounce (500 ms), advance the index, reset the
progress tracker, loop-boundary bookkeeping with the session-refresh
check, then swap in the standby source (or fall back to the remote URL).
The handler is synchronous; its `Date.now()` samples are modelled as the
single instant `now`. -/
def handleVideoEnd (now : Nat) (st : PlayerState) : PlayerState × List Signal :=
  if st.playlist.length = 0 then (st, [])
  else if now - st.lastEndEvent < 500 then (st, [])
  else
    let current := st.currentIndex
    let nextIdx := (current + 1) % st.playlist.length
    let st1 : PlayerState :=
      { st with lastEndEvent := now, currentIndex := nextIdx, lastProgress := now }
    let isLastVideo := current = st.playlist.length - 1
    let sessionDuration := now - st.sessionStart
    let advance (s : PlayerState) : PlayerState × List Signal :=
      match s.standbySource with
      | some sb => ({ s with activeSource := some sb }, [])
      | none => ({ s with activeSource := some (s.playlist.getD nextIdx ("")) }, [])
    if isLastVideo then
      let st2 := { st1 with loopCount := st1.loopCount + 1 }
      if MAX_SESSION_MS ≤ sessionDuration ∨ 20 ≤ st2.loopCount then
        let reason :=
          if MAX_SESSION_MS ≤ sessionDuration then "2hr Session" else "Periodic"
        (st2,
         [Signal.discordLog ("🔄 Session Refresh")
            ("Scheduled memory cleanup.\n**Reason:** " ++ reason) 5763719,
          Signal.refresh (("Memory Cleanup (") ++ reason ++ (")"))])
      else advance st2
    else advance st1

/-- One tick of the watchdog `setInterval` callback: if no progress for
more than the stuck threshold, log, emit the refresh signal and reset
`lastProgressRef` so the next ticks do not refire for the same stall. -/
def watchdogTick (now : Nat) (st : PlayerState) : PlayerState × List Signal :=
  let stuckDuration := now - st.lastProgress
  if stuckDuration > WATCHDOG_STUCK_THRESHOLD_MS then
    ({ st with lastProgress := now },
     [Signal.discordLog ("⚠️ Watchdog Recovery")
        ("Playback stuck for " ++ toString ((stuckDuration + 500) / 1000) ++
          "s. Triggering reset.") 16776960,
      Signal.refresh ("Playback Stuck (Watchdog)")])
  else (st, [])

/-! ## `App` state machine — the `sync_state` message -/

inductive SignageAppState where
  | loading
  | pairing
  | playing
  | sleeping
deriving Repr, DecidableEq

/-- One playlist item `{url, name?, size?}`; identity is `url`. -/
structure VideoSource where
  url : String
  name : Option String := none
  size : Option Nat := none
deriving Repr, DecidableEq

/-- The `App` component state the `sync_state` case touches. -/
structure AppRec where
  appState : SignageAppState
  playlist : List VideoSource
  orientation : String
  playerKey : Nat
deriving Repr, DecidableEq

/-- A `sync_state` payload: optional orientation and optional playlist
(absent or falsy fields skip their branch). -/
structure SyncPayload where
  orientation : Option String
  playlist : Option (List VideoSource)
deriving Repr, DecidableEq

/-- Model of the join `playlist.map((v) => v.url).join` with separator `|`. -/
def joinUrls (l : List VideoSource) : String :=
  String.intercalate ("|") (l.map (fun v => v.url))

/-- Model of the `sync_state` case of `App.handleMessage`: apply the orientation
if present; then, if a playlist is present and its pipe-joined URL
string differs from the current one, replace the playlist, bump
`playerKey` (player remount) and transition to `playing`/`sleeping`;
otherwise leave player state untouched. -/
def handleSyncState (p : SyncPayload) (st : AppRec) : AppRec :=
  let st1 :=
    match p.orientation with
    | some o => { st with orientation := o }
    | none => st
  match p.playlist with
  | none => st1
  | some newPlaylist =>
    let currentUrls := joinUrls st1.playlist
    let newUrls := joinUrls newPlaylist
    if currentUrls ≠ newUrls then
      if 0 < newPlaylist.length then
        { st1 with playlist := newPlaylist, playerKey := st1.playerKey + 1,
                   appState := .playing }
      else
        { st1 with playlist := [], appState := .sleeping }
    else st1

/-! ## Verification predicates -/

/-- Two manifest entries with different URLs.  The manifest is keyed by
URL: `_download` appends an entry only after `getCachedPath` reported a
miss, which guarantees no entry with that URL remains. -/
def urlNe (a b : CacheEntry) : Prop := a.url ≠ b.url

instance : DecidableRel urlNe := fun a b => inferInstanceAs (Decidable (a.url ≠ b.url))

def CallerPhase.isDone : CallerPhase → Bool
  | .done _ => true
  | _ => false

/-- Invariant of the coalescing machine: before any caller runs, no
download has started; while the shared promise is pending, exactly one
download has started and every caller is pending or awaiting; after
completion, exactly one download has started and every caller holds the
same result. -/
def CoalesceInv (st : CoalesceState) : Prop :=
  (st.active = false ∧ st.started = 0 ∧ st.cachedPath = none ∧
    ∀ c ∈ st.callers, c = CallerPhase.pending)
  ∨ (st.active = true ∧ st.started = 1 ∧ st.cachedPath = none ∧
    ∀ c ∈ st.callers, c = CallerPhase.pending ∨ c = CallerPhase.awaiting)
  ∨ (st.active = false ∧ st.started = 1 ∧
    ∃ r, ∀ c ∈ st.callers, c = CallerPhase.done r)

/-! ## Theorems -/

theorem coalesceStep_length (st : CoalesceState) (a : CoalesceAction) :
    (coalesceStep st a).callers.length = st.callers.length := by
  cases a with
  | stepCaller i =>
    simp only [coalesceStep]
    cases hg : st.callers.get? i with
    | none => rfl
    | some c =>
      cases c with
      | pending =>
        cases st.cachedPath <;> by_cases h : st.active <;> simp [h]
      | awaiting => rfl
      | done r => rfl
  | complete r =>
    simp only [coalesceStep]
    split <;> simp

theorem coalesceRun_length (st : CoalesceState) (acts : List CoalesceAction) :
    (coalesceRun st acts).callers.length = st.callers.length := by
  induction acts generalizing st with
  | nil => rfl
  | cons a rest ih =>
    calc (coalesceRun (coalesceStep st a) rest).callers.length
        = (coalesceStep st a).callers.length := ih _
      _ = st.callers.length := coalesceStep_length st a

theorem coalesceInit_inv (n : Nat) : CoalesceInv (coalesceInit n) := by
  refine Or.inl ⟨rfl, rfl, rfl, ?_⟩
  intro c hc
  exact (List.eq_of_mem_replicate hc)

theorem coalesceInv_step (st : CoalesceState) (a : CoalesceAction)
    (h : CoalesceInv st) : CoalesceInv (coalesceStep st a) := by
  cases a with
  | stepCaller i =>
    rcases h with ⟨ha, hs, hc, hall⟩ | ⟨ha, hs, hc, hall⟩ | ⟨ha, hs, r, hall⟩
    · simp only [coalesceStep]
      cases hg : st.callers.get? i with
      | none => exact Or.inl ⟨ha, hs, hc, hall⟩
      | some c =>
        cases c with
        | pending =>
          rw [hc, ha]
          simp only [Bool.false_eq_true, if_false]
          refine Or.inr (Or.inl ⟨rfl, by simp [hs], rfl, ?_⟩)
          intro c hcm
          rcases List.mem_or_eq_of_mem_set hcm with hm | rfl
          · exact Or.inl (hall _ hm)
          · exact Or.inr rfl
        | awaiting =>
          exact absurd (hall _ (List.get?_mem hg)) (by decide)
        | done r =>
          exact absurd (hall _ (List.get?_mem hg)) (by simp)
    · simp only [coalesceStep]
      cases hg : st.callers.get? i with
      | none => exact Or.inr (Or.inl ⟨ha, hs, hc, hall⟩)
      | some c =>
        cases c with
        | pending =>
          rw [hc, ha]
          simp only [if_true]
          refine Or.inr (Or.inl ⟨rfl, hs, rfl, ?_⟩)
          intro c hcm
          rcases List.mem_or_eq_of_mem_set hcm with hm | rfl
          · exact hall _ hm
          · exact Or.inr rfl
        | awaiting => exact Or.inr (Or.inl ⟨ha, hs, hc, hall⟩)
        | done r => exact Or.inr (Or.inl ⟨ha, hs, hc, hall⟩)
    · simp only [coalesceStep]
      cases hg : st.callers.get? i with
      | none => exact Or.inr (Or.inr ⟨ha, hs, r, hall⟩)
      | some c =>
        cases hcase : c with
        | pending =>
          rw [hcase] at hg
          have := hall _ (List.get?_mem hg)
          exact absurd this (by simp)
        | awaiting => exact Or.inr (Or.inr ⟨ha, hs, r, hall⟩)
        | done r2 => exact Or.inr (Or.inr ⟨ha, hs, r, hall⟩)
  | complete r0 =>
    rcases h with ⟨ha, hs, hc, hall⟩ | ⟨ha, hs, hc, hall⟩ | ⟨ha, hs, r, hall⟩
    · simp only [coalesceStep, ha, Bool.false_and, Bool.false_eq_true, if_false]
      exact Or.inl ⟨ha, hs, hc, hall⟩
    · by_cases hap : st.callers.all (fun c => !c.isPending)
      · simp only [coalesceStep, ha, hap, Bool.and_self, if_true]
        refine Or.inr (Or.inr ⟨rfl, hs, r0, ?_⟩)
        intro c hcm
        rcases List.mem_map.mp hcm with ⟨x, hx, rfl⟩
        rcases hall _ hx with h1 | h1
        · have := List.all_eq_true.mp hap _ hx
          rw [h1] at this
          exact absurd this (by decide)
        · rw [h1]
          simp
      · simp only [coalesceStep, ha, Bool.true_and]
        rw [if_neg (by simpa using hap)]
        exact Or.inr (Or.inl ⟨ha, hs, hc, hall⟩)
    · simp only [coalesceStep, ha, Bool.false_and, Bool.false_eq_true, if_false]
      exact Or.inr (Or.inr ⟨ha, hs, r, hall⟩)

theorem coalesceRun_inv (st : CoalesceState) (acts : List CoalesceAction)
    (h : CoalesceInv st) : CoalesceInv (coalesceRun st acts) := by
  induction acts generalizing st with
  | nil => exact h
  | cons a rest ih => exact ih _ (coalesceInv_step st a h)

/-- C1: for every URL, at most one download is in flight at a time — for
any interleaving of `n > 0` concurrent `prefetchVideo(url)` calls on an
uncached URL (caller microtasks in any order, the download completing
only once no caller microtask is pending, as the event loop guarantees),
once every caller has resolved, exactly one `_download` was started and
all callers got the same result (the same path on success, or all
`none` on failure). -/
theorem prefetch_coalescing (n : Nat) (acts : List CoalesceAction) (hn : 0 < n)
    (hdone : ∀ c ∈ (coalesceRun (coalesceInit n) acts).callers, c.isDone = true) :
    (coalesceRun (coalesceInit n) acts).started = 1 ∧
    ∃ r, ∀ c ∈ (coalesceRun (coalesceInit n) acts).callers,
      c = CallerPhase.done r := by
  have hinv := coalesceRun_inv (coalesceInit n) acts (coalesceInit_inv n)
  have hlen : (coalesceRun (coalesceInit n) acts).callers.length = n := by
    rw [coalesceRun_length]
    simp [coalesceInit]
  have hne : (coalesceRun (coalesceInit n) acts).callers ≠ [] := by
    intro h0
    rw [h0] at hlen
    simp at hlen
    omega
  obtain ⟨c0, hc0⟩ := List.exists_mem_of_ne_nil _ hne
  rcases hinv with ⟨_, _, _, hall⟩ | ⟨_, _, _, hall⟩ | ⟨_, hs, r, hall⟩
  · have h1 := hall _ hc0
    have h2 := hdone _ hc0
    rw [h1] at h2
    exact absurd h2 (by decide)
  · have h2 := hdone _ hc0
    rcases hall _ hc0 with h1 | h1 <;> rw [h1] at h2 <;> exact absurd h2 (by decide)
  · exact ⟨hs, r, hall⟩

/-- Witness for C1 at n = 2: both callers step, the download completes
successfully, both resolve to the same path with one download started. -/
theorem prefetch_coalescing_witness :
    (coalesceRun (coalesceInit 2)
      [CoalesceAction.stepCaller 0, CoalesceAction.stepCaller 1,
       CoalesceAction.complete (some ("/data/cache/video-cache/39.mp4"))]).started = 1 ∧
    ∃ r, ∀ c ∈ (coalesceRun (coalesceInit 2)
      [CoalesceAction.stepCaller 0, CoalesceAction.stepCaller 1,
       CoalesceAction.complete (some ("/data/cache/video-cache/39.mp4"))]).callers,
      c = CallerPhase.done r :=
  prefetch_coalescing 2
    [CoalesceAction.stepCaller 0, CoalesceAction.stepCaller 1,
     CoalesceAction.complete (some ("/data/cache/video-cache/39.mp4"))]
    (by decide) (by decide)

/-! ### Manifest arithmetic and uniqueness helpers -/

theorem sumSizes_perm {l1 l2 : List CacheEntry} (h : l1.Perm l2) :
    sumSizes l1 = sumSizes l2 := by
  unfold sumSizes
  exact (h.map (fun e => e.size)).sum_eq

theorem sumSizes_append (l1 l2 : List CacheEntry) :
    sumSizes (l1 ++ l2) = sumSizes l1 + sumSizes l2 := by
  simp [sumSizes]

theorem size_le_sumSizes {e : CacheEntry} {l : List CacheEntry} (h : e ∈ l) :
    e.size ≤ sumSizes l :=
  List.single_le_sum (fun x _ => Nat.zero_le x) _ (List.mem_map_of_mem _ h)

theorem entriesTotal_eq (l : List CacheEntry) :
    l.foldl (fun s e => s + (e.size : Int)) 0 = (sumSizes l : Int) := by
  suffices h : ∀ (a : Int), l.foldl (fun s e => s + (e.size : Int)) a = a + sumSizes l by
    simpa using h 0
  induction l with
  | nil =>
    intro a
    simp [sumSizes]
  | cons e rest ih =>
    intro a
    simp only [List.foldl_cons, ih, sumSizes, List.map_cons, List.sum_cons]
    push_cast
    ring

theorem pairwise_url_inj {l : List CacheEntry} (h : l.Pairwise urlNe)
    {a b : CacheEntry} (ha : a ∈ l) (hb : b ∈ l) (hu : a.url = b.url) : a = b := by
  induction l with
  | nil => cases ha
  | cons x rest ih =>
    rcases List.pairwise_cons.mp h with ⟨hx, hrest⟩
    rcases List.mem_cons.mp ha with rfl | ha2 <;> rcases List.mem_cons.mp hb with rfl | hb2
    · rfl
    · exact absurd hu (hx _ hb2)
    · exact absurd hu.symm (hx _ ha2)
    · exact ih hrest ha2 hb2

theorem filter_ne_eq_erase {l : List CacheEntry} {e : CacheEntry}
    (hd : l.Pairwise urlNe) (he : e ∈ l) :
    l.filter (fun x => x.url ≠ e.url) = l.erase e := by
  induction l with
  | nil => rfl
  | cons x rest ih =>
    rcases List.pairwise_cons.mp hd with ⟨hx, hrest⟩
    by_cases hxe : x = e
    · subst hxe
      rw [List.erase_cons_head]
      simp only [List.filter_cons]
      rw [if_neg (by simp)]
      apply List.filter_eq_self.mpr
      intro a ha
      simpa using (hx _ ha).symm
    · have he2 : e ∈ rest := by
        rcases List.mem_cons.mp he with rfl | h2
        · exact absurd rfl hxe
        · exact h2
      rw [List.erase_cons_tail]
      · simp only [List.filter_cons]
        rw [if_pos (by simpa using hx _ he2)]
        rw [ih hrest he2]
      · simpa using hxe

/-! ### Eviction loop lemmas -/

theorem evictGo_entries_subset (budget : Nat) :
    ∀ (s : List CacheEntry) (T : Int) (entries : List CacheEntry) (files : List String),
      ∀ e ∈ (CacheService.evictGo budget s T entries files).1, e ∈ entries := by
  intro s
  induction s with
  | nil =>
    intro T entries files e he
    simpa [CacheService.evictGo] using he
  | cons x rest ih =>
    intro T entries files e he
    rw [CacheService.evictGo] at he
    split at he
    · exact he
    · exact List.mem_of_mem_filter (ih _ _ _ _ he)

theorem evictGo_files_subset (budget : Nat) :
    ∀ (s : List CacheEntry) (T : Int) (entries : List CacheEntry) (files : List String),
      ∀ f ∈ (CacheService.evictGo budget s T entries files).2, f ∈ files := by
  intro s
  induction s with
  | nil =>
    intro T entries files f hf
    simpa [CacheService.evictGo] using hf
  | cons x rest ih =>
    intro T entries files f hf
    rw [CacheService.evictGo] at hf
    split at hf
    · exact hf
    · exact List.mem_of_mem_filter (ih _ _ _ _ hf)

theorem evictGo_le_budget (budget : Nat) :
    ∀ (s : List CacheEntry) (T : Int) (entries : List CacheEntry) (files : List String),
      T = (sumSizes entries : Int) → s.Perm entries → entries.Pairwise urlNe →
      sumSizes (CacheService.evictGo budget s T entries files).1 ≤ budget := by
  intro s
  induction s with
  | nil =>
    intro T entries files hT hperm hd
    have he : entries = [] := hperm.symm.eq_nil
    subst he
    simp [CacheService.evictGo, sumSizes]
  | cons x rest ih =>
    intro T entries files hT hperm hd
    rw [CacheService.evictGo]
    by_cases hle : T ≤ (budget : Int)
    · rw [if_pos hle]
      rw [hT] at hle
      exact_mod_cast hle
    · rw [if_neg hle]
      have hx : x ∈ entries := hperm.subset (List.mem_cons_self x rest)
      have hrest : rest.Perm (entries.erase x) :=
        (List.cons_perm_iff_perm_erase.mp hperm).2
      have hfe : entries.filter (fun e => e.url ≠ x.url) = entries.erase x :=
        filter_ne_eq_erase hd hx
      have hsum : sumSizes entries = x.size + sumSizes (entries.erase x) := by
        have h2 := sumSizes_perm (List.perm_cons_erase hx)
        simpa [sumSizes] using h2
      have hT2 : T - (x.size : Int) = (sumSizes (entries.erase x) : Int) := by
        rw [hT, hsum]
        push_cast
        ring
      have hd2 : (entries.erase x).Pairwise urlNe :=
        hd.sublist (List.erase_sublist x entries)
      rw [hfe]
      exact ih _ _ _ hT2 (hfe ▸ hrest) hd2

/-- C3: after the eviction pass that runs on each completed download
returns, the sum of the sizes of all manifest entries is at most the
configured byte budget (for any manifest keyed by URL, the invariant the
cache maintains). -/
theorem evict_budget_bound (budget : Nat) (st : CacheState)
    (hdist : st.entries.Pairwise urlNe) :
    sumSizes (CacheService.evictOldVideos budget st).entries ≤ budget := by
  simp only [CacheService.evictOldVideos, entriesTotal_eq]
  by_cases hle : (sumSizes st.entries : Int) ≤ (budget : Int)
  · rw [if_pos hle]
    exact_mod_cast hle
  · rw [if_neg hle]
    exact evictGo_le_budget budget _ _ _ _ rfl
      (List.perm_insertionSort CacheService.byAccess st.entries) hdist

/-- Witness for C3: two 60-byte entries against a 100-byte budget end at
total 60 ≤ 100. -/
theorem evict_budget_bound_witness :
    (([⟨"http://h/a.mp4", "fa", 60, 1⟩, ⟨"http://h/b.mp4", "fb", 60, 2⟩] :
        List CacheEntry).Pairwise urlNe) ∧
    sumSizes (CacheService.evictOldVideos 100
      ⟨[⟨"http://h/a.mp4", "fa", 60, 1⟩, ⟨"http://h/b.mp4", "fb", 60, 2⟩],
        ["fa", "fb"], 2⟩).entries ≤ 100 :=
  ⟨by decide, evict_budget_bound 100 _ (by decide)⟩

theorem evictGo_drop (budget : Nat) :
    ∀ (s : List CacheEntry) (T : Int) (entries : List CacheEntry) (files : List String),
      T = (sumSizes entries : Int) → s.Perm entries → entries.Pairwise urlNe →
      ∃ k, k ≤ s.length ∧
        (CacheService.evictGo budget s T entries files).1.Perm (s.drop k) ∧
        sumSizes (s.drop k) ≤ budget ∧
        ∀ j < k, budget < sumSizes (s.drop j) := by
  intro s
  induction s with
  | nil =>
    intro T entries files hT hperm hd
    have he : entries = [] := hperm.symm.eq_nil
    subst he
    refine ⟨0, Nat.le_refl _, ?_, ?_, ?_⟩
    · simp [CacheService.evictGo]
    · simp [sumSizes]
    · intro j hj
      omega
  | cons x rest ih =>
    intro T entries files hT hperm hd
    rw [CacheService.evictGo]
    by_cases hle : T ≤ (budget : Int)
    · rw [if_pos hle]
      refine ⟨0, Nat.zero_le _, hperm.symm, ?_, ?_⟩
      · have h2 : sumSizes (x :: rest) = sumSizes entries := sumSizes_perm hperm
        rw [List.drop_zero, h2]
        rw [hT] at hle
        exact_mod_cast hle
      · intro j hj
        omega
    · rw [if_neg hle]
      have hx : x ∈ entries := hperm.subset (List.mem_cons_self x rest)
      have hrest : rest.Perm (entries.erase x) :=
        (List.cons_perm_iff_perm_erase.mp hperm).2
      have hfe : entries.filter (fun e => e.url ≠ x.url) = entries.erase x :=
        filter_ne_eq_erase hd hx
      have hsum : sumSizes entries = x.size + sumSizes (entries.erase x) := by
        have h2 := sumSizes_perm (List.perm_cons_erase hx)
        simpa [sumSizes] using h2
      have hT2 : T - (x.size : Int) = (sumSizes (entries.erase x) : Int) := by
        rw [hT, hsum]
        push_cast
        ring
      have hd2 : (entries.erase x).Pairwise urlNe :=
        hd.sublist (List.erase_sublist x entries)
      obtain ⟨k, hk, hp, hs, hm⟩ := ih _ _ (removeFile x.filename files)
        (hfe ▸ hT2) (hfe ▸ hrest) (hfe ▸ hd2)
      refine ⟨k + 1, by simpa using Nat.succ_le_succ hk, ?_, ?_, ?_⟩
      · simpa using hp
      · simpa using hs
      · intro j hj
        cases j with
        | zero =>
          rw [List.drop_zero]
          have hxr : sumSizes (x :: rest) = sumSizes entries := sumSizes_perm hperm
          rw [hxr]
          have h3 : (budget : Int) < T := lt_of_not_ge hle
          rw [hT] at h3
          exact_mod_cast h3
        | succ j2 =>
          have hj2 : j2 < k := Nat.lt_of_succ_lt_succ hj
          simpa using hm j2 hj2

/-- C4: whenever the manifest total exceeds the budget, the eviction pass
removes exactly a prefix of the entries stably sorted by `accessedAt`
(oldest first, ties in manifest order), stopping as soon as the remaining
total fits the budget (or nothing remains); consequently no removed entry
is more recently accessed than any surviving entry. -/
theorem evict_lru_order (budget : Nat) (st : CacheState)
    (hdist : st.entries.Pairwise urlNe) :
    ∃ k, k ≤ (CacheService.sortByAccess st.entries).length ∧
      (CacheService.evictOldVideos budget st).entries.Perm
        ((CacheService.sortByAccess st.entries).drop k) ∧
      sumSizes ((CacheService.sortByAccess st.entries).drop k) ≤ budget ∧
      (∀ j < k, budget < sumSizes ((CacheService.sortByAccess st.entries).drop j)) ∧
      ∀ r ∈ (CacheService.sortByAccess st.entries).take k,
        ∀ v ∈ (CacheService.evictOldVideos budget st).entries,
          r.accessedAt ≤ v.accessedAt := by
  have hsorted : List.Sorted CacheService.byAccess (CacheService.sortByAccess st.entries) :=
    List.sorted_insertionSort CacheService.byAccess st.entries
  have hsp : (CacheService.sortByAccess st.entries).Perm st.entries :=
    List.perm_insertionSort CacheService.byAccess st.entries
  have main : ∃ k, k ≤ (CacheService.sortByAccess st.entries).length ∧
      (CacheService.evictOldVideos budget st).entries.Perm
        ((CacheService.sortByAccess st.entries).drop k) ∧
      sumSizes ((CacheService.sortByAccess st.entries).drop k) ≤ budget ∧
      ∀ j < k, budget < sumSizes ((CacheService.sortByAccess st.entries).drop j) := by
    simp only [CacheService.evictOldVideos, entriesTotal_eq]
    by_cases hle : (sumSizes st.entries : Int) ≤ (budget : Int)
    · rw [if_pos hle]
      refine ⟨0, Nat.zero_le _, hsp.symm, ?_, ?_⟩
      · rw [List.drop_zero]
        have h2 : sumSizes (CacheService.sortByAccess st.entries) = sumSizes st.entries :=
          sumSizes_perm hsp
        rw [h2]
        exact_mod_cast hle
      · intro j hj
        omega
    · rw [if_neg hle]
      exact evictGo_drop budget _ _ _ st.files rfl hsp hdist
  obtain ⟨k, hk, hp, hs, hm⟩ := main
  refine ⟨k, hk, hp, hs, hm, ?_⟩
  intro r hr v hv
  have hv2 : v ∈ (CacheService.sortByAccess st.entries).drop k := hp.subset hv
  have hsplit := hsorted
  rw [← List.take_append_drop k (CacheService.sortByAccess st.entries)] at hsplit
  exact (List.pairwise_append.mp hsplit).2.2 r hr v hv2

/-- Witness for C4: three entries totalling 150 against a 100 budget; the
oldest is evicted and the characterization holds. -/
theorem evict_lru_order_witness :
    (([⟨"http://h/a.mp4", "fa", 50, 30⟩, ⟨"http://h/b.mp4", "fb", 50, 10⟩,
       ⟨"http://h/c.mp4", "fc", 50, 20⟩] : List CacheEntry).Pairwise urlNe) ∧
    (∃ k, k ≤ (CacheService.sortByAccess
        [⟨"http://h/a.mp4", "fa", 50, 30⟩, ⟨"http://h/b.mp4", "fb", 50, 10⟩,
         ⟨"http://h/c.mp4", "fc", 50, 20⟩]).length ∧
      (CacheService.evictOldVideos 100
        ⟨[⟨"http://h/a.mp4", "fa", 50, 30⟩, ⟨"http://h/b.mp4", "fb", 50, 10⟩,
          ⟨"http://h/c.mp4", "fc", 50, 20⟩], ["fa", "fb", "fc"], 3⟩).entries.Perm
        ((CacheService.sortByAccess
          [⟨"http://h/a.mp4", "fa", 50, 30⟩, ⟨"http://h/b.mp4", "fb", 50, 10⟩,
           ⟨"http://h/c.mp4", "fc", 50, 20⟩]).drop k) ∧
      sumSizes ((CacheService.sortByAccess
        [⟨"http://h/a.mp4", "fa", 50, 30⟩, ⟨"http://h/b.mp4", "fb", 50, 10⟩,
         ⟨"http://h/c.mp4", "fc", 50, 20⟩]).drop k) ≤ 100 ∧
      (∀ j < k, 100 < sumSizes ((CacheService.sortByAccess
        [⟨"http://h/a.mp4", "fa", 50, 30⟩, ⟨"http://h/b.mp4", "fb", 50, 10⟩,
         ⟨"http://h/c.mp4", "fc", 50, 20⟩]).drop j)) ∧
      ∀ r ∈ (CacheService.sortByAccess
        [⟨"http://h/a.mp4", "fa", 50, 30⟩, ⟨"http://h/b.mp4", "fb", 50, 10⟩,
         ⟨"http://h/c.mp4", "fc", 50, 20⟩]).take k,
        ∀ v ∈ (CacheService.evictOldVideos 100
          ⟨[⟨"http://h/a.mp4", "fa", 50, 30⟩, ⟨"http://h/b.mp4", "fb", 50, 10⟩,
            ⟨"http://h/c.mp4", "fc", 50, 20⟩], ["fa", "fb", "fc"], 3⟩).entries,
          r.accessedAt ≤ v.accessedAt) :=
  ⟨by decide, evict_lru_order 100
    ⟨[⟨"http://h/a.mp4", "fa", 50, 30⟩, ⟨"http://h/b.mp4", "fb", 50, 10⟩,
      ⟨"http://h/c.mp4", "fc", 50, 20⟩], ["fa", "fb", "fc"], 3⟩ (by decide)⟩

theorem evictGo_removes_oversized (budget : Nat) :
    ∀ (s : List CacheEntry) (T : Int) (entries : List CacheEntry) (files : List String)
      (e0 : CacheEntry),
      T = (sumSizes entries : Int) → s.Perm entries → entries.Pairwise urlNe →
      e0 ∈ entries → budget < e0.size →
      (∀ e ∈ (CacheService.evictGo budget s T entries files).1, e.url ≠ e0.url) ∧
      e0.filename ∉ (CacheService.evictGo budget s T entries files).2 := by
  intro s
  induction s with
  | nil =>
    intro T entries files e0 hT hperm hd he0 hov
    rw [hperm.symm.eq_nil] at he0
    cases he0
  | cons x rest ih =>
    intro T entries files e0 hT hperm hd he0 hov
    have hgt : (budget : Int) < T := by
      have h1 : e0.size ≤ sumSizes entries := size_le_sumSizes he0
      rw [hT]
      exact_mod_cast Nat.lt_of_lt_of_le hov h1
    rw [CacheService.evictGo, if_neg (not_le.mpr hgt)]
    have hx : x ∈ entries := hperm.subset (List.mem_cons_self x rest)
    by_cases hxu : x.url = e0.url
    · have hxe : x = e0 := pairwise_url_inj hd hx he0 hxu
      subst hxe
      constructor
      · intro e he
        have h2 := evictGo_entries_subset budget _ _ _ _ _ he
        have h3 := List.of_mem_filter h2
        simpa using h3
      · intro hmem
        have h2 := evictGo_files_subset budget _ _ _ _ _ hmem
        have h3 := List.of_mem_filter h2
        simp at h3
    · have hrest : rest.Perm (entries.erase x) :=
        (List.cons_perm_iff_perm_erase.mp hperm).2
      have hfe : entries.filter (fun e => e.url ≠ x.url) = entries.erase x :=
        filter_ne_eq_erase hd hx
      have hsum : sumSizes entries = x.size + sumSizes (entries.erase x) := by
        have h2 := sumSizes_perm (List.perm_cons_erase hx)
        simpa [sumSizes] using h2
      have hT2 : T - (x.size : Int) = (sumSizes (entries.erase x) : Int) := by
        rw [hT, hsum]
        push_cast
        ring
      have hd2 : (entries.erase x).Pairwise urlNe :=
        hd.sublist (List.erase_sublist x entries)
      have hne : e0 ≠ x := by
        intro h2
        exact hxu (h2 ▸ rfl)
      have he02 : e0 ∈ entries.erase x := (List.mem_erase_of_ne hne).mpr he0
      exact ih _ _ (removeFile x.filename files) e0
        (hfe ▸ hT2) (hfe ▸ hrest) (hfe ▸ hd2) (hfe ▸ he02) hov

theorem evictOldVideos_downloads (budget : Nat) (st : CacheState) :
    (CacheService.evictOldVideos budget st).downloads = st.downloads := by
  simp only [CacheService.evictOldVideos]
  split_ifs <;> rfl

theorem download_downloads (env : DownloadEnv) (budget : Nat) (url : String)
    (st : CacheState) :
    (CacheService._download env budget url st).2.downloads = st.downloads + 1 := by
  rcases hdl : env.dlResult with _ | s
  · simp [CacheService._download, hdl]
  · by_cases h200 : s ≠ 200
    · simp only [CacheService._download, hdl]
      rw [if_pos h200]
      split_ifs <;> rfl
    · simp only [CacheService._download, hdl]
      rw [if_neg h200]
      rcases hst : env.statResult with _ | sz
      · simp only [hst]
      · simp only [hst]
        rw [evictOldVideos_downloads]

theorem find?_url_eq_none {l : List CacheEntry} {url : String}
    (h : ∀ e ∈ l, e.url ≠ url) : l.find? (fun e => e.url = url) = none :=
  List.find?_eq_none.mpr (fun e he => by simpa using h e he)

theorem prefetch_of_miss (env : DownloadEnv) (budget : Nat) (url : String)
    (st : CacheState)
    (h : st.entries.find? (fun e => e.url = url) = none) :
    CacheService.prefetchVideo env budget url st =
      CacheService._download env budget url st := by
  simp only [CacheService.prefetchVideo, CacheService.getCachedPath, h]

/-- Core of the oversized-download behaviour: a successful download whose
recorded size exceeds the budget returns the path while eviction removes
both the file and the manifest entry, and one network fetch happened. -/
theorem prefetch_oversized_core (env : DownloadEnv) (budget : Nat)
    (url : String) (st : CacheState) (sz : Nat)
    (hdist : st.entries.Pairwise urlNe)
    (hmiss : st.entries.find? (fun e => e.url = url) = none)
    (hdl : env.dlResult = some 200)
    (hstat : env.statResult = some sz)
    (hover : budget < sz) :
    ((CacheService.prefetchVideo env budget url st).1 = some (filePathFor url) ∧
    (∀ e ∈ (CacheService.prefetchVideo env budget url st).2.entries, e.url ≠ url) ∧
    urlToFilename url ∉ (CacheService.prefetchVideo env budget url st).2.files) ∧
    (CacheService.prefetchVideo env budget url st).2.downloads = st.downloads + 1 := by
  refine ⟨?_, ?_⟩
  case refine_2 =>
    simp only [CacheService.prefetchVideo, CacheService.getCachedPath, hmiss]
    exact download_downloads env budget url st
  have hnotin : ∀ e ∈ st.entries, e.url ≠ url := by
    intro e he
    have h2 := List.find?_eq_none.mp hmiss e he
    simpa using h2
  set entry : CacheEntry :=
    { url := url, filename := urlToFilename url, size := sz, accessedAt := env.now }
    with hentry
  have hdist2 : (st.entries ++ [entry]).Pairwise urlNe := by
    rw [List.pairwise_append]
    refine ⟨hdist, List.pairwise_singleton _ _, ?_⟩
    intro a ha b hb
    rw [List.mem_singleton.mp hb]
    exact hnotin a ha
  have hmem : entry ∈ st.entries ++ [entry] := by
    simp
  have hover2 : budget < entry.size := hover
  -- reduce prefetchVideo to the eviction of the appended manifest
  simp only [CacheService.prefetchVideo, CacheService.getCachedPath, hmiss,
    CacheService._download, hdl, hstat]
  simp only [ne_eq, not_true_eq_false, if_false, reduceIte]
  set files1 := if env.writesFile = true then addFile (urlToFilename url) st.files
    else st.files with hfiles1
  have hsum2 : sumSizes (st.entries ++ [entry]) = sumSizes st.entries + sz := by
    simp [sumSizes_append, sumSizes, hentry]
  have hgt : ¬ ((sumSizes (st.entries ++ [entry]) : Int) ≤ (budget : Int)) := by
    rw [hsum2]
    push_cast
    omega
  simp only [CacheService.evictOldVideos, entriesTotal_eq]
  rw [if_neg (by simpa using hgt)]
  have hmain := evictGo_removes_oversized budget
    (CacheService.sortByAccess (st.entries ++ [entry]))
    ((sumSizes (st.entries ++ [entry]) : Int))
    (st.entries ++ [entry]) files1 entry rfl
    (List.perm_insertionSort CacheService.byAccess _) hdist2 hmem hover2
  refine ⟨rfl, ?_, ?_⟩
  · intro e he
    exact hmain.1 e he
  · exact hmain.2

/-- C10: when a download succeeds with a recorded size strictly above the
configured budget, `prefetchVideo` still returns the local path, even
though the eviction pass it runs before returning has already deleted
that very file and dropped its manifest entry: the returned path points
to a file that no longer exists and the URL is no longer cached. -/
theorem prefetch_oversized_ghost_path (env : DownloadEnv) (budget : Nat)
    (url : String) (st : CacheState) (sz : Nat)
    (hdist : st.entries.Pairwise urlNe)
    (hmiss : st.entries.find? (fun e => e.url = url) = none)
    (hdl : env.dlResult = some 200)
    (hstat : env.statResult = some sz)
    (hover : budget < sz) :
    (CacheService.prefetchVideo env budget url st).1 = some (filePathFor url) ∧
    (∀ e ∈ (CacheService.prefetchVideo env budget url st).2.entries, e.url ≠ url) ∧
    urlToFilename url ∉ (CacheService.prefetchVideo env budget url st).2.files :=
  (prefetch_oversized_core env budget url st sz hdist hmiss hdl hstat hover).1

/-- Witness for C10: an 11-byte download against a 10-byte budget returns
a path whose file was already evicted. -/
theorem prefetch_oversized_ghost_path_witness :
    ((([] : List CacheEntry).Pairwise urlNe) ∧
      (([] : List CacheEntry).find? (fun e => e.url = "u") = none) ∧
      (DownloadEnv.mk true (some 200) (some 11) false 7).dlResult = some 200 ∧
      (DownloadEnv.mk true (some 200) (some 11) false 7).statResult = some 11 ∧
      10 < 11) ∧
    ((CacheService.prefetchVideo (DownloadEnv.mk true (some 200) (some 11) false 7)
        10 "u" ⟨[], [], 0⟩).1 = some (filePathFor "u") ∧
      (∀ e ∈ (CacheService.prefetchVideo (DownloadEnv.mk true (some 200) (some 11) false 7)
        10 "u" ⟨[], [], 0⟩).2.entries, e.url ≠ "u") ∧
      urlToFilename "u" ∉ (CacheService.prefetchVideo
        (DownloadEnv.mk true (some 200) (some 11) false 7) 10 "u" ⟨[], [], 0⟩).2.files) :=
  ⟨⟨by decide, by decide, rfl, rfl, by decide⟩,
    prefetch_oversized_ghost_path (DownloadEnv.mk true (some 200) (some 11) false 7)
      10 "u" ⟨[], [], 0⟩ 11 (by decide) (by decide) rfl rfl (by decide)⟩

/-! ### Failure handling of `_download` (C2) -/

theorem download_failure (env : DownloadEnv) (budget : Nat) (url : String)
    (st : CacheState)
    (hfail : env.dlResult = none ∨ env.statResult = none ∨
      ∃ s, env.dlResult = some s ∧ s ≠ 200) :
    (CacheService._download env budget url st).1 = none ∧
    ∀ s, env.dlResult = some s → s ≠ 200 → env.unlinkThrows = false →
      urlToFilename url ∉ (CacheService._download env budget url st).2.files := by
  rcases hdl : env.dlResult with _ | s
  · constructor
    · simp [CacheService._download, hdl]
    · intro s hs _ _
      cases hs
  · by_cases h200 : s = 200
    · subst h200
      have hst : env.statResult = none := by
        rcases hfail with h | h | ⟨s2, hs2, hne⟩
        · rw [hdl] at h
          cases h
        · exact h
        · rw [hdl] at hs2
          injection hs2 with h2
          exact absurd h2.symm hne
      constructor
      · simp [CacheService._download, hdl, hst]
      · intro s2 hs2 hne _
        injection hs2 with h2
        exact absurd h2.symm hne
    · have hne200 : (s ≠ 200) := h200
      constructor
      · simp only [CacheService._download, hdl]
        rw [if_pos hne200]
        split_ifs <;> rfl
      · intro s2 hs2 _ hul
        injection hs2 with h2
        subst h2
        simp only [CacheService._download, hdl, hul, Bool.false_eq_true, if_false]
        rw [if_pos hne200]
        split_ifs with h1 h2 h3
        all_goals
          first
            | (intro hin
               have h4 := List.of_mem_filter hin
               simp at h4)
            | assumption

/-- Counterexample to C2 as stated: a download whose `stat` throws (an
I/O error) after a 200-status download returns null but leaves the
partial file on disk — the `catch` path of `_download` performs no
cleanup; only the non-200-status path unlinks the partial file. -/
theorem prefetch_failure_counterexample :
    (CacheService.prefetchVideo (DownloadEnv.mk true (some 200) none false 7)
        MAX_CACHE_BYTES "u" ⟨[], [], 0⟩).1 = none ∧
    urlToFilename "u" ∈ (CacheService.prefetchVideo
        (DownloadEnv.mk true (some 200) none false 7)
        MAX_CACHE_BYTES "u" ⟨[], [], 0⟩).2.files := by
  constructor
  · have h := download_failure (DownloadEnv.mk true (some 200) none false 7)
      MAX_CACHE_BYTES "u" ⟨[], [], 0⟩ (Or.inr (Or.inl rfl))
    simp only [CacheService.prefetchVideo, CacheService.getCachedPath, List.find?_nil]
    exact h.1
  · simp only [CacheService.prefetchVideo, CacheService.getCachedPath, List.find?_nil,
      CacheService._download]
    simp [addFile]

/-- C2 corrected: on any failure (rejected download promise, non-2xx
status, or failing `stat`) `prefetchVideo` returns null and never
throws (the model is total: every outcome yields a value); the partial
file is removed on the non-2xx-status path whenever the unlink itself
does not throw, but a rejected promise or a failing `stat` leaves any
partial file on disk. -/
theorem prefetch_failure_amended (env : DownloadEnv) (budget : Nat)
    (url : String) (st : CacheState)
    (hmiss : (CacheService.getCachedPath env.now url st).1 = none)
    (hfail : env.dlResult = none ∨ env.statResult = none ∨
      ∃ s, env.dlResult = some s ∧ s ≠ 200) :
    (CacheService.prefetchVideo env budget url st).1 = none ∧
    ∀ s, env.dlResult = some s → s ≠ 200 → env.unlinkThrows = false →
      urlToFilename url ∉ (CacheService.prefetchVideo env budget url st).2.files := by
  rcases hgc : CacheService.getCachedPath env.now url st with ⟨r, st1⟩
  rw [hgc] at hmiss
  simp only at hmiss
  subst hmiss
  have hd := download_failure env budget url st1 hfail
  constructor
  · simp only [CacheService.prefetchVideo, hgc]
    exact hd.1
  · intro s hs hne hul
    simp only [CacheService.prefetchVideo, hgc]
    exact hd.2 s hs hne hul

/-- Witness for C2 (amended): a 404 download with a written partial file
returns null with the partial file removed. -/
theorem prefetch_failure_amended_witness :
    ((CacheService.getCachedPath 7 "u" ⟨[], [], 0⟩).1 = none ∧
      ((DownloadEnv.mk true (some 404) (some 5) false 7).dlResult = none ∨
        (DownloadEnv.mk true (some 404) (some 5) false 7).statResult = none ∨
        ∃ s, (DownloadEnv.mk true (some 404) (some 5) false 7).dlResult = some s ∧
          s ≠ 200)) ∧
    ((CacheService.prefetchVideo (DownloadEnv.mk true (some 404) (some 5) false 7)
        MAX_CACHE_BYTES "u" ⟨[], [], 0⟩).1 = none ∧
      ∀ s, (DownloadEnv.mk true (some 404) (some 5) false 7).dlResult = some s →
        s ≠ 200 → (DownloadEnv.mk true (some 404) (some 5) false 7).unlinkThrows = false →
        urlToFilename "u" ∉ (CacheService.prefetchVideo
          (DownloadEnv.mk true (some 404) (some 5) false 7)
          MAX_CACHE_BYTES "u" ⟨[], [], 0⟩).2.files) :=
  ⟨⟨by decide, Or.inr (Or.inr ⟨404, rfl, by decide⟩)⟩,
    prefetch_failure_amended (DownloadEnv.mk true (some 404) (some 5) false 7)
      MAX_CACHE_BYTES "u" ⟨[], [], 0⟩ (by decide)
      (Or.inr (Or.inr ⟨404, rfl, by decide⟩))⟩

/-- Counterexample to C5 as stated: with an 11-byte video against a
10-byte configured budget, the first call succeeds (returns a path), but
its cache entry is evicted by the pass the download itself triggers, so
the second sequential call misses the cache and performs a second
network download. -/
theorem prefetch_idempotence_counterexample :
    (CacheService.prefetchVideo (DownloadEnv.mk true (some 200) (some 11) false 7)
        10 "u" ⟨[], [], 0⟩).1 = some (filePathFor "u") ∧
    (CacheService.prefetchVideo (DownloadEnv.mk true (some 200) (some 11) false 7) 10 "u"
        (CacheService.prefetchVideo (DownloadEnv.mk true (some 200) (some 11) false 7)
          10 "u" ⟨[], [], 0⟩).2).2.downloads = 2 := by
  obtain ⟨⟨hpath, hne, hfiles⟩, hdln⟩ := prefetch_oversized_core
    (DownloadEnv.mk true (some 200) (some 11) false 7) 10 "u" ⟨[], [], 0⟩ 11
    (by decide) (by decide) rfl rfl (by decide)
  refine ⟨hpath, ?_⟩
  have hfind := find?_url_eq_none hne
  rw [prefetch_of_miss _ _ _ _ hfind, download_downloads, hdln]

/-- C5 corrected: two sequential `prefetchVideo(url)` calls return the
same deterministic path and the second performs no network download,
provided the entry written by the first (successful) call survives its
own eviction pass — e.g. whenever the recorded size still fits the
budget on top of the existing manifest.  (An oversized download evicts
its own entry and forces a re-download, as the counterexample shows.) -/
theorem prefetch_idempotent_amended (env1 env2 : DownloadEnv) (budget : Nat)
    (url : String) (st0 : CacheState) (sz : Nat)
    (hmiss : st0.entries.find? (fun e => e.url = url) = none)
    (hw : env1.writesFile = true)
    (hdl : env1.dlResult = some 200)
    (hstat : env1.statResult = some sz)
    (hfit : sumSizes st0.entries + sz ≤ budget) :
    (CacheService.prefetchVideo env1 budget url st0).1 = some (filePathFor url) ∧
    (CacheService.prefetchVideo env2 budget url
        (CacheService.prefetchVideo env1 budget url st0).2).1 =
      some (filePathFor url) ∧
    (CacheService.prefetchVideo env2 budget url
        (CacheService.prefetchVideo env1 budget url st0).2).2.downloads =
      (CacheService.prefetchVideo env1 budget url st0).2.downloads ∧
    (CacheService.prefetchVideo env1 budget url st0).2.downloads = st0.downloads + 1 := by
  have hsum : (List.foldl (fun s e => s + (e.size : Int)) 0
      (st0.entries ++ [⟨url, urlToFilename url, sz, env1.now⟩]) ≤ (budget : Int)) := by
    rw [entriesTotal_eq, sumSizes_append]
    have h2 : sumSizes [(⟨url, urlToFilename url, sz, env1.now⟩ : CacheEntry)] = sz := by
      simp [sumSizes]
    rw [h2]
    exact_mod_cast hfit
  have hevict : CacheService.evictOldVideos budget
      { entries := st0.entries ++ [⟨url, urlToFilename url, sz, env1.now⟩],
        files := addFile (urlToFilename url) st0.files,
        downloads := st0.downloads + 1 } =
      { entries := st0.entries ++ [⟨url, urlToFilename url, sz, env1.now⟩],
        files := addFile (urlToFilename url) st0.files,
        downloads := st0.downloads + 1 } := by
    simp only [CacheService.evictOldVideos]
    rw [if_pos hsum]
  have h1 : CacheService.prefetchVideo env1 budget url st0 =
      (some (filePathFor url),
        { entries := st0.entries ++ [⟨url, urlToFilename url, sz, env1.now⟩],
          files := addFile (urlToFilename url) st0.files,
          downloads := st0.downloads + 1 }) := by
    simp only [CacheService.prefetchVideo, CacheService.getCachedPath, hmiss,
      CacheService._download, hdl, hstat, hw]
    simp only [if_true, ne_eq, not_true_eq_false, if_false, reduceIte]
    rw [hevict]
    rfl
  have hfind : (st0.entries ++ [(⟨url, urlToFilename url, sz, env1.now⟩ : CacheEntry)]).find?
      (fun e => e.url = url) = some ⟨url, urlToFilename url, sz, env1.now⟩ := by
    rw [List.find?_append, hmiss]
    simp [List.find?]
  have hmem : urlToFilename url ∈ addFile (urlToFilename url) st0.files := by
    unfold addFile
    split_ifs with h
    · exact h
    · exact List.mem_cons_self _ _
  have h2 : CacheService.prefetchVideo env2 budget url
      (CacheService.prefetchVideo env1 budget url st0).2 =
      (some (filePathFor url),
        { entries := touchFirst env2.now url
            (st0.entries ++ [⟨url, urlToFilename url, sz, env1.now⟩]),
          files := addFile (urlToFilename url) st0.files,
          downloads := st0.downloads + 1 }) := by
    rw [h1]
    simp only [CacheService.prefetchVideo, CacheService.getCachedPath, hfind]
    rw [if_pos hmem]
    rfl
  refine ⟨?_, ?_, ?_, ?_⟩
  · rw [h1]
  · rw [h2]
  · rw [h2, h1]
  · rw [h1]

/-- Witness for C5 (amended): a 5-byte download under the default budget
from an empty cache; the second call is a cache hit, returns the same
path, and performs no new download. -/
theorem prefetch_idempotent_amended_witness :
    ((([] : List CacheEntry).find? (fun e => e.url = "u") = none) ∧
      (DownloadEnv.mk true (some 200) (some 5) false 7).writesFile = true ∧
      (DownloadEnv.mk true (some 200) (some 5) false 7).dlResult = some 200 ∧
      (DownloadEnv.mk true (some 200) (some 5) false 7).statResult = some 5 ∧
      sumSizes ([] : List CacheEntry) + 5 ≤ MAX_CACHE_BYTES) ∧
    ((CacheService.prefetchVideo (DownloadEnv.mk true (some 200) (some 5) false 7)
        MAX_CACHE_BYTES "u" ⟨[], [], 0⟩).1 = some (filePathFor "u") ∧
      (CacheService.prefetchVideo (DownloadEnv.mk false (some 200) none false 9)
          MAX_CACHE_BYTES "u"
          (CacheService.prefetchVideo (DownloadEnv.mk true (some 200) (some 5) false 7)
            MAX_CACHE_BYTES "u" ⟨[], [], 0⟩).2).1 = some (filePathFor "u") ∧
      (CacheService.prefetchVideo (DownloadEnv.mk false (some 200) none false 9)
          MAX_CACHE_BYTES "u"
          (CacheService.prefetchVideo (DownloadEnv.mk true (some 200) (some 5) false 7)
            MAX_CACHE_BYTES "u" ⟨[], [], 0⟩).2).2.downloads =
        (CacheService.prefetchVideo (DownloadEnv.mk true (some 200) (some 5) false 7)
          MAX_CACHE_BYTES "u" ⟨[], [], 0⟩).2.downloads ∧
      (CacheService.prefetchVideo (DownloadEnv.mk true (some 200) (some 5) false 7)
        MAX_CACHE_BYTES "u" ⟨[], [], 0⟩).2.downloads = 0 + 1) :=
  ⟨⟨by decide, rfl, rfl, rfl, by decide⟩,
    prefetch_idempotent_amended (DownloadEnv.mk true (some 200) (some 5) false 7)
      (DownloadEnv.mk false (some 200) none false 9) MAX_CACHE_BYTES "u"
      ⟨[], [], 0⟩ 5 (by decide) rfl rfl rfl (by decide)⟩

/-! ### Playback engine: debounce, watchdog and session ceiling -/

/-- C6: two end events whose timestamps are less than 500 ms apart cause
exactly one playlist advance: the second `handleVideoEnd` invocation is
debounced — it changes no state and emits nothing — and the index after
the pair is one step past the original (mod playlist length). -/
theorem debounce_single_advance (st : PlayerState) (t1 t2 : Nat)
    (hpl : ¬ (st.playlist.length = 0))
    (hfirst : ¬ (t1 - st.lastEndEvent < 500))
    (hclose : t2 - t1 < 500) :
    handleVideoEnd t2 (handleVideoEnd t1 st).1 = ((handleVideoEnd t1 st).1, []) ∧
    (handleVideoEnd t1 st).1.currentIndex =
      (st.currentIndex + 1) % st.playlist.length := by
  have hbase : (handleVideoEnd t1 st).1.lastEndEvent = t1 ∧
      (handleVideoEnd t1 st).1.playlist = st.playlist ∧
      (handleVideoEnd t1 st).1.currentIndex =
        (st.currentIndex + 1) % st.playlist.length := by
    simp only [handleVideoEnd]
    rw [if_neg hpl, if_neg hfirst]
    split_ifs <;>
      first
        | exact ⟨rfl, rfl, rfl⟩
        | (split <;> exact ⟨rfl, rfl, rfl⟩)
  obtain ⟨hle, hplist, hidx⟩ := hbase
  set st1 := (handleVideoEnd t1 st).1 with hst1
  refine ⟨?_, hidx⟩
  simp only [handleVideoEnd]
  rw [if_neg (by rw [hplist]; exact hpl)]
  rw [if_pos (by rw [hle]; exact hclose)]

/-- Witness for C6: a three-item playlist, end events at 1000 and 1200. -/
theorem debounce_single_advance_witness :
    ((¬ ((⟨["a", "b", "c"], 0, some ("a"), some ("sb"), 0, 0, 0, 0⟩ :
        PlayerState).playlist.length = 0)) ∧
      (¬ (1000 - (⟨["a", "b", "c"], 0, some ("a"), some ("sb"), 0, 0, 0, 0⟩ :
        PlayerState).lastEndEvent < 500)) ∧
      1200 - 1000 < 500) ∧
    (handleVideoEnd 1200
        (handleVideoEnd 1000
          (⟨["a", "b", "c"], 0, some ("a"), some ("sb"), 0, 0, 0, 0⟩ : PlayerState)).1 =
      ((handleVideoEnd 1000
        (⟨["a", "b", "c"], 0, some ("a"), some ("sb"), 0, 0, 0, 0⟩ : PlayerState)).1, []) ∧
      (handleVideoEnd 1000
        (⟨["a", "b", "c"], 0, some ("a"), some ("sb"), 0, 0, 0, 0⟩ : PlayerState)).1.currentIndex =
        ((⟨["a", "b", "c"], 0, some ("a"), some ("sb"), 0, 0, 0, 0⟩ :
          PlayerState).currentIndex + 1) %
          (⟨["a", "b", "c"], 0, some ("a"), some ("sb"), 0, 0, 0, 0⟩ :
            PlayerState).playlist.length) :=
  ⟨⟨by decide, by decide, by decide⟩,
    debounce_single_advance
      (⟨["a", "b", "c"], 0, some ("a"), some ("sb"), 0, 0, 0, 0⟩ : PlayerState)
      1000 1200 (by decide) (by decide) (by decide)⟩

/-- C7: when no progress event has arrived for more than the stuck
threshold, the next watchdog tick emits exactly one refresh signal, whose
reason is `Playback Stuck (Watchdog)`, and resets the progress timestamp
so that a following tick within the threshold of the reset emits
nothing. -/
theorem watchdog_single_fire (st : PlayerState) (now now2 : Nat)
    (hstuck : now - st.lastProgress > WATCHDOG_STUCK_THRESHOLD_MS)
    (hnext : now2 - now ≤ WATCHDOG_STUCK_THRESHOLD_MS) :
    (watchdogTick now st).2.filter Signal.isRefresh =
      [Signal.refresh ("Playback Stuck (Watchdog)")] ∧
    (watchdogTick now st).1.lastProgress = now ∧
    watchdogTick now2 (watchdogTick now st).1 = ((watchdogTick now st).1, []) := by
  have h1 : watchdogTick now st =
      ({ st with lastProgress := now },
       [Signal.discordLog ("⚠️ Watchdog Recovery")
          (("Playback stuck for ") ++ toString ((now - st.lastProgress + 500) / 1000) ++
            ("s. Triggering reset.")) 16776960,
        Signal.refresh ("Playback Stuck (Watchdog)")]) := by
    simp only [watchdogTick]
    rw [if_pos hstuck]
  refine ⟨?_, ?_, ?_⟩
  · rw [h1]
    rfl
  · rw [h1]
  · rw [h1]
    simp only [watchdogTick]
    rw [if_neg (by simpa using Nat.not_lt.mpr hnext)]

/-- Witness for C7: stalled since 0, tick at 40000, next tick at 45000. -/
theorem watchdog_single_fire_witness :
    ((40000 - (⟨["a"], 0, none, none, 0, 0, 0, 0⟩ :
        PlayerState).lastProgress > WATCHDOG_STUCK_THRESHOLD_MS) ∧
      45000 - 40000 ≤ WATCHDOG_STUCK_THRESHOLD_MS) ∧
    ((watchdogTick 40000 (⟨["a"], 0, none, none, 0, 0, 0, 0⟩ :
        PlayerState)).2.filter Signal.isRefresh =
      [Signal.refresh ("Playback Stuck (Watchdog)")] ∧
      (watchdogTick 40000 (⟨["a"], 0, none, none, 0, 0, 0, 0⟩ :
        PlayerState)).1.lastProgress = 40000 ∧
      watchdogTick 45000 (watchdogTick 40000 (⟨["a"], 0, none, none, 0, 0, 0, 0⟩ :
        PlayerState)).1 =
        ((watchdogTick 40000 (⟨["a"], 0, none, none, 0, 0, 0, 0⟩ :
          PlayerState)).1, [])) :=
  ⟨⟨by decide, by decide⟩,
    watchdog_single_fire (⟨["a"], 0, none, none, 0, 0, 0, 0⟩ : PlayerState)
      40000 45000 (by decide) (by decide)⟩

/-- C8: when the item that just ended was the last of the playlist and
the session has run at least two hours or the incremented loop count has
reached 20, `handleVideoEnd` emits the session-refresh log and signal —
the reason carries the tag `2hr Session` when the time ceiling was hit,
`Periodic` otherwise — and does not swap a new source into the active
slot (no advance to the next item). -/
theorem session_ceiling_refresh (st : PlayerState) (now : Nat)
    (hpl : ¬ (st.playlist.length = 0))
    (hdeb : ¬ (now - st.lastEndEvent < 500))
    (hlast : st.currentIndex = st.playlist.length - 1)
    (hceil : MAX_SESSION_MS ≤ now - st.sessionStart ∨ 20 ≤ st.loopCount + 1) :
    (handleVideoEnd now st).2 =
      [Signal.discordLog ("🔄 Session Refresh")
        (("Scheduled memory cleanup.\n**Reason:** ") ++
          (if MAX_SESSION_MS ≤ now - st.sessionStart then "2hr Session" else "Periodic"))
        5763719,
       Signal.refresh (("Memory Cleanup (") ++
        (if MAX_SESSION_MS ≤ now - st.sessionStart then "2hr Session" else "Periodic") ++
        (")"))] ∧
    (handleVideoEnd now st).1.activeSource = st.activeSource ∧
    (handleVideoEnd now st).1.loopCount = st.loopCount + 1 := by
  simp only [handleVideoEnd]
  rw [if_neg hpl, if_neg hdeb, if_pos hlast, if_pos hceil]
  exact ⟨rfl, rfl, rfl⟩

/-- Witness for C8: a two-item playlist on its 20th completed loop under
two hours of session time fires the `Periodic` refresh. -/
theorem session_ceiling_refresh_witness :
    ((¬ ((⟨["a", "b"], 1, some ("b"), none, 0, 0, 0, 19⟩ :
        PlayerState).playlist.length = 0)) ∧
      (¬ (9000 - (⟨["a", "b"], 1, some ("b"), none, 0, 0, 0, 19⟩ :
        PlayerState).lastEndEvent < 500)) ∧
      (⟨["a", "b"], 1, some ("b"), none, 0, 0, 0, 19⟩ :
        PlayerState).currentIndex =
        (⟨["a", "b"], 1, some ("b"), none, 0, 0, 0, 19⟩ :
          PlayerState).playlist.length - 1 ∧
      (MAX_SESSION_MS ≤ 9000 - (⟨["a", "b"], 1, some ("b"), none, 0, 0, 0, 19⟩ :
          PlayerState).sessionStart ∨
        20 ≤ (⟨["a", "b"], 1, some ("b"), none, 0, 0, 0, 19⟩ :
          PlayerState).loopCount + 1)) ∧
    ((handleVideoEnd 9000 (⟨["a", "b"], 1, some ("b"), none, 0, 0, 0, 19⟩ :
        PlayerState)).2 =
      [Signal.discordLog ("🔄 Session Refresh")
        (("Scheduled memory cleanup.\n**Reason:** ") ++
          (if MAX_SESSION_MS ≤ 9000 - (⟨["a", "b"], 1, some ("b"), none, 0, 0, 0, 19⟩ :
            PlayerState).sessionStart then "2hr Session" else "Periodic")) 5763719,
       Signal.refresh (("Memory Cleanup (") ++
        (if MAX_SESSION_MS ≤ 9000 - (⟨["a", "b"], 1, some ("b"), none, 0, 0, 0, 19⟩ :
          PlayerState).sessionStart then "2hr Session" else "Periodic") ++ (")"))] ∧
      (handleVideoEnd 9000 (⟨["a", "b"], 1, some ("b"), none, 0, 0, 0, 19⟩ :
        PlayerState)).1.activeSource =
        (⟨["a", "b"], 1, some ("b"), none, 0, 0, 0, 19⟩ : PlayerState).activeSource ∧
      (handleVideoEnd 9000 (⟨["a", "b"], 1, some ("b"), none, 0, 0, 0, 19⟩ :
        PlayerState)).1.loopCount =
        (⟨["a", "b"], 1, some ("b"), none, 0, 0, 0, 19⟩ : PlayerState).loopCount + 1) :=
  ⟨⟨by decide, by decide, by decide, by decide⟩,
    session_ceiling_refresh (⟨["a", "b"], 1, some ("b"), none, 0, 0, 0, 19⟩ : PlayerState)
      9000 (by decide) (by decide) (by decide) (by decide)⟩

/-! ### The `sync_state` smart sync -/

/-- Counterexample to C9 as stated: the code compares pipe-joined URL
strings, not URL sequences.  The one-item playlist with URL `a|b` and
the two-item playlist with URLs `a`, `b` have different URL sequences
but identical joins, so this `sync_state` changes nothing even though
the sequences differ. -/
theorem sync_noop_counterexample :
    (List.map (fun v => v.url)
        ([⟨"a|b", none, none⟩] : List VideoSource) ≠
      List.map (fun v => v.url)
        ([⟨"a", none, none⟩, ⟨"b", none, none⟩] : List VideoSource)) ∧
    handleSyncState ⟨none, some [⟨"a", none, none⟩, ⟨"b", none, none⟩]⟩
        ⟨SignageAppState.playing, [⟨"a|b", none, none⟩], "0", 5⟩ =
      ⟨SignageAppState.playing, [⟨"a|b", none, none⟩], "0", 5⟩ := by
  decide

/-- C9 corrected: the `sync_state` no-op test keys on equality of the
pipe-joined URL strings rather than of the URL sequences.  When a
playlist is present in the payload and the joined strings are equal, the
session state, stored playlist and player instance key are unchanged
(orientation may still update); only when the joined strings differ is
the playlist replaced, with a transition to playing and a player-key
bump when non-empty, or to sleeping with a cleared playlist when empty.
URL sequences that differ but join to the same string (URLs containing
the pipe character) are treated as unchanged. -/
theorem sync_state_smart_sync (p : SyncPayload) (st : AppRec)
    (npl : List VideoSource)
    (hp : p.playlist = some npl) :
    (joinUrls st.playlist = joinUrls npl →
      ((handleSyncState p st).appState = st.appState ∧
       (handleSyncState p st).playlist = st.playlist ∧
       (handleSyncState p st).playerKey = st.playerKey)) ∧
    (joinUrls st.playlist ≠ joinUrls npl →
      ((handleSyncState p st).playlist = (if 0 < npl.length then npl else []) ∧
       (handleSyncState p st).appState =
         (if 0 < npl.length then SignageAppState.playing else SignageAppState.sleeping) ∧
       (handleSyncState p st).playerKey =
         (if 0 < npl.length then st.playerKey + 1 else st.playerKey))) := by
  rcases p with ⟨po, ppl⟩
  simp only at hp
  subst hp
  cases po with
  | none =>
    constructor
    · intro heq
      simp only [handleSyncState]
      rw [if_neg (not_not_intro heq)]
      · exact ⟨rfl, rfl, rfl⟩
    · intro hne
      simp only [handleSyncState]
      rw [if_pos (by simpa using hne)]
      split_ifs with hlen
      · exact ⟨rfl, rfl, rfl⟩
      · exact ⟨rfl, rfl, rfl⟩
  | some o =>
    constructor
    · intro heq
      simp only [handleSyncState]
      rw [if_neg (not_not_intro heq)]
      · exact ⟨rfl, rfl, rfl⟩
    · intro hne
      simp only [handleSyncState]
      rw [if_pos (by simpa using hne)]
      split_ifs with hlen
      · exact ⟨rfl, rfl, rfl⟩
      · exact ⟨rfl, rfl, rfl⟩

/-- Witness for C9 (amended): an identical two-item playlist is a no-op;
a genuinely different playlist replaces and transitions. -/
theorem sync_state_smart_sync_witness :
    ((⟨none, some [⟨"a", none, none⟩, ⟨"b", none, none⟩]⟩ :
        SyncPayload).playlist = some [⟨"a", none, none⟩, ⟨"b", none, none⟩]) ∧
    ((joinUrls (⟨SignageAppState.playing, [⟨"a", none, none⟩, ⟨"b", none, none⟩], "0", 5⟩ :
        AppRec).playlist = joinUrls [⟨"a", none, none⟩, ⟨"b", none, none⟩] →
      ((handleSyncState ⟨none, some [⟨"a", none, none⟩, ⟨"b", none, none⟩]⟩
          ⟨SignageAppState.playing, [⟨"a", none, none⟩, ⟨"b", none, none⟩], "0", 5⟩).appState =
        (⟨SignageAppState.playing, [⟨"a", none, none⟩, ⟨"b", none, none⟩], "0", 5⟩ :
          AppRec).appState ∧
       (handleSyncState ⟨none, some [⟨"a", none, none⟩, ⟨"b", none, none⟩]⟩
          ⟨SignageAppState.playing, [⟨"a", none, none⟩, ⟨"b", none, none⟩], "0", 5⟩).playlist =
        (⟨SignageAppState.playing, [⟨"a", none, none⟩, ⟨"b", none, none⟩], "0", 5⟩ :
          AppRec).playlist ∧
       (handleSyncState ⟨none, some [⟨"a", none, none⟩, ⟨"b", none, none⟩]⟩
          ⟨SignageAppState.playing, [⟨"a", none, none⟩, ⟨"b", none, none⟩], "0", 5⟩).playerKey =
        (⟨SignageAppState.playing, [⟨"a", none, none⟩, ⟨"b", none, none⟩], "0", 5⟩ :
          AppRec).playerKey)) ∧
      (joinUrls (⟨SignageAppState.playing, [⟨"a", none, none⟩, ⟨"b", none, none⟩], "0", 5⟩ :
          AppRec).playlist ≠ joinUrls [⟨"a", none, none⟩, ⟨"b", none, none⟩] →
        ((handleSyncState ⟨none, some [⟨"a", none, none⟩, ⟨"b", none, none⟩]⟩
            ⟨SignageAppState.playing, [⟨"a", none, none⟩, ⟨"b", none, none⟩], "0", 5⟩).playlist =
          (if 0 < ([⟨"a", none, none⟩, ⟨"b", none, none⟩] : List VideoSource).length
            then [⟨"a", none, none⟩, ⟨"b", none, none⟩] else []) ∧
         (handleSyncState ⟨none, some [⟨"a", none, none⟩, ⟨"b", none, none⟩]⟩
            ⟨SignageAppState.playing, [⟨"a", none, none⟩, ⟨"b", none, none⟩], "0", 5⟩).appState =
          (if 0 < ([⟨"a", none, none⟩, ⟨"b", none, none⟩] : List VideoSource).length
            then SignageAppState.playing else SignageAppState.sleeping) ∧
         (handleSyncState ⟨none, some [⟨"a", none, none⟩, ⟨"b", none, none⟩]⟩
            ⟨SignageAppState.playing, [⟨"a", none, none⟩, ⟨"b", none, none⟩], "0", 5⟩).playerKey =
          (if 0 < ([⟨"a", none, none⟩, ⟨"b", none, none⟩] : List VideoSource).length
            then (⟨SignageAppState.playing, [⟨"a", none, none⟩, ⟨"b", none, none⟩], "0", 5⟩ :
              AppRec).playerKey + 1
            else (⟨SignageAppState.playing, [⟨"a", none, none⟩, ⟨"b", none, none⟩], "0", 5⟩ :
              AppRec).playerKey)))) :=
  ⟨rfl,
    sync_state_smart_sync ⟨none, some [⟨"a", none, none⟩, ⟨"b", none, none⟩]⟩
      ⟨SignageAppState.playing, [⟨"a", none, none⟩, ⟨"b", none, none⟩], "0", 5⟩
      [⟨"a", none, none⟩, ⟨"b", none, none⟩] rfl⟩

/-! ### The distinct-URL manifest invariant is maintained -/

theorem touchFirst_urls (now : Nat) (url : String) :
    ∀ l : List CacheEntry,
      (touchFirst now url l).map (fun e => e.url) = l.map (fun e => e.url) := by
  intro l
  induction l with
  | nil => rfl
  | cons e rest ih =>
    simp only [touchFirst]
    split_ifs with h
    · simp
    · simp [ih]

theorem pairwise_urlNe_of_map_eq {l1 l2 : List CacheEntry}
    (h : l2.map (fun e => e.url) = l1.map (fun e => e.url))
    (hp : l1.Pairwise urlNe) : l2.Pairwise urlNe := by
  have h1 : (l1.map (fun e => e.url)).Pairwise (fun a b => a ≠ b) :=
    List.pairwise_map.mpr hp
  rw [← h] at h1
  have h2 := List.pairwise_map.mp h1
  exact h2

theorem evictGo_entries_sublist (budget : Nat) :
    ∀ (s : List CacheEntry) (T : Int) (entries : List CacheEntry) (files : List String),
      ((CacheService.evictGo budget s T entries files).1).Sublist entries := by
  intro s
  induction s with
  | nil =>
    intro T entries files
    exact List.Sublist.refl _
  | cons x rest ih =>
    intro T entries files
    rw [CacheService.evictGo]
    split
    · exact List.Sublist.refl _
    · exact (ih _ _ _).trans (List.filter_sublist _)

theorem evictOldVideos_entries_sublist (budget : Nat) (st : CacheState) :
    ((CacheService.evictOldVideos budget st).entries).Sublist st.entries := by
  simp only [CacheService.evictOldVideos]
  split_ifs
  · exact List.Sublist.refl _
  · exact evictGo_entries_sublist budget _ _ _ _

theorem download_preserves_distinct (env : DownloadEnv) (budget : Nat)
    (url : String) (st : CacheState)
    (hdist : st.entries.Pairwise urlNe)
    (hurl : ∀ e ∈ st.entries, e.url ≠ url) :
    ((CacheService._download env budget url st).2).entries.Pairwise urlNe := by
  rcases hdl : env.dlResult with _ | s
  · simpa [CacheService._download, hdl] using hdist
  · by_cases h200 : s ≠ 200
    · simp only [CacheService._download, hdl]
      rw [if_pos h200]
      split_ifs <;> simpa using hdist
    · simp only [CacheService._download, hdl]
      rw [if_neg h200]
      rcases hst : env.statResult with _ | sz
      · simpa using hdist
      · simp only []
        have hdist2 : (st.entries ++
            [(⟨url, urlToFilename url, sz, env.now⟩ : CacheEntry)]).Pairwise urlNe := by
          rw [List.pairwise_append]
          refine ⟨hdist, List.pairwise_singleton _ _, ?_⟩
          intro a ha b hb
          rw [List.mem_singleton.mp hb]
          exact hurl a ha
        exact hdist2.sublist (evictOldVideos_entries_sublist budget _)

/-- The manifest's key invariant — entries have pairwise distinct URLs —
is preserved by every `prefetchVideo` call, so the eviction theorems
apply along any sequence of downloads. -/
theorem prefetch_preserves_distinct (env : DownloadEnv) (budget : Nat)
    (url : String) (st : CacheState)
    (hdist : st.entries.Pairwise urlNe) :
    ((CacheService.prefetchVideo env budget url st).2).entries.Pairwise urlNe := by
  cases hfind : st.entries.find? (fun e => e.url = url) with
  | none =>
    rw [prefetch_of_miss env budget url st hfind]
    refine download_preserves_distinct env budget url st hdist ?_
    intro e he
    simpa using List.find?_eq_none.mp hfind e he
  | some e =>
    simp only [CacheService.prefetchVideo, CacheService.getCachedPath, hfind]
    split_ifs with hmem
    · exact pairwise_urlNe_of_map_eq (touchFirst_urls env.now url st.entries) hdist
    · have hd2 : (st.entries.filter (fun x => x.url ≠ url)).Pairwise urlNe :=
        hdist.sublist (List.filter_sublist _)
      have hu2 : ∀ e2 ∈ st.entries.filter (fun x => x.url ≠ url), e2.url ≠ url := by
        intro e2 he2
        simpa using List.of_mem_filter he2
      exact download_preserves_distinct env budget url _ hd2 hu2

end Signage
